import Mathlib

/-!
Shallow embedding of the expense-bot ledger core (`src/db.py`, `src/utils.py`).

The durable store is a single SQLite table
`expenses(id AUTOINCREMENT, user_id, item, amount, date, category)`.
We model its state as a list of rows kept in insertion order together with
the next rowid to be assigned.  Because SQLite's AUTOINCREMENT hands out
strictly increasing, never-reused ids, insertion order coincides with
ascending-id order; `DB.WF` records that invariant, and every query that the
source implements with `ORDER BY id ASC` / `ORDER BY id DESC LIMIT 1` is
embedded as the corresponding operation on the id-ordered list.
-/

namespace ExpenseBot

/-- One row of the `expenses` table. -/
structure Expense where
  id : Nat
  user_id : Int
  item : String
  amount : Int
  date : String
  category : Option String
deriving DecidableEq, Repr

/-- The persistent state: rows in insertion (= ascending id) order, plus the
next AUTOINCREMENT id. A fresh database starts with no rows and next id 1. -/
structure DB where
  rows : List Expense
  nextId : Nat
deriving DecidableEq, Repr

/-- The empty database produced by `init_db` on a fresh file. -/
def DB.empty : DB := ⟨[], 1⟩

/-- Well-formedness maintained by the store: row ids strictly increase along
the list (so they are unique and the list is sorted by id), and every id is
below the AUTOINCREMENT counter. -/
def DB.WF (db : DB) : Prop :=
  db.rows.Pairwise (fun a b => a.id < b.id) ∧ ∀ r ∈ db.rows, r.id < db.nextId

/-- Python `str(n)` for a natural number, zero-padded on the left to width
`w`: the embedding of the f-string padding `f"{n:04d}"` / `f"{n:02d}"`,
as a character list. -/
def padZerosL (w n : Nat) : List Char :=
  List.replicate (w - (Nat.repr n).length) '0' ++ (Nat.repr n).data

/-- The month search pattern `f"{year:04d}-{month:02d}-"` from
`_get_month_total_sync` and friends, as a character list. -/
def ymPatL (y m : Nat) : List Char :=
  padZerosL 4 y ++ '-' :: (padZerosL 2 m ++ ['-'])

/-- `date LIKE 'YYYY-MM-%'`: the pattern contains no LIKE metacharacters and
no letters, so the match is exactly "the date string starts with the
zero-padded `YYYY-MM-` prefix". -/
def likeYM (y m : Nat) (date : String) : Bool :=
  (ymPatL y m).isPrefixOf date.data

/-- `_add_expense_sync(user_id, item, amount, date_str, category)`: a single
`INSERT` appending one row; SQLite assigns the next AUTOINCREMENT id.
The source performs no validation here. -/
def add_expense (db : DB) (user_id : Int) (item : String) (amount : Int)
    (date_str : String) (category : Option String) : DB :=
  { rows := db.rows ++ [⟨db.nextId, user_id, item, amount, date_str, category⟩],
    nextId := db.nextId + 1 }

/-- `_get_all_expenses_sync(user_id)`:
`SELECT item, amount, date FROM expenses WHERE user_id = ? ORDER BY id ASC`.
The rows list is kept in ascending-id order, so filtering it yields exactly
the `ORDER BY id ASC` result. -/
def get_all_expenses (db : DB) (user_id : Int) : List (String × Int × String) :=
  (db.rows.filter (fun r => r.user_id == user_id)).map (fun r => (r.item, r.amount, r.date))

/-- `_get_expenses_by_date_sync(user_id, date_str)`: exact string equality on
`date`, same ordering as `get_all_expenses`. -/
def get_expenses_by_date (db : DB) (user_id : Int) (date_str : String) :
    List (String × Int × String) :=
  (db.rows.filter (fun r => r.user_id == user_id && r.date == date_str)).map
    (fun r => (r.item, r.amount, r.date))

/-- The rows selected by `WHERE user_id = ? AND date LIKE 'YYYY-MM-%'`,
shared by the three month queries of the source. -/
def monthRows (db : DB) (user_id : Int) (y m : Nat) : List Expense :=
  db.rows.filter (fun r => r.user_id == user_id && likeYM y m r.date)

/-- `_get_month_total_sync(user_id, year, month)`:
`SELECT COALESCE(SUM(amount), 0) ... WHERE user_id = ? AND date LIKE ?`
followed by `int(row[0] or 0)`: the sum of the matching amounts, with 0 for
an empty match. -/
def get_month_total (db : DB) (user_id : Int) (y m : Nat) : Int :=
  (monthRows db user_id y m).foldl (fun acc r => acc + r.amount) 0

/-- `COALESCE(NULLIF(category, ''), 'Boshqa')` from
`_get_month_category_totals_sync`: NULL and blank categories are coerced to
the literal label `'Boshqa'`. -/
def coerceCat (c : Option String) : String :=
  match c with
  | none => "Boshqa"
  | some s => if s = "" then "Boshqa" else s

/-- Insert a pair into a list already sorted by descending total
(`ORDER BY total DESC`). -/
def insertDesc (p : String × Int) : List (String × Int) → List (String × Int)
  | [] => [p]
  | q :: qs => if q.2 ≤ p.2 then p :: q :: qs else q :: insertDesc p qs

/-- Sort category/total pairs by descending total (`ORDER BY total DESC`);
ties keep a deterministic (insertion-sort) order, which SQLite leaves
unspecified. -/
def sortDesc : List (String × Int) → List (String × Int)
  | [] => []
  | p :: ps => insertDesc p (sortDesc ps)

/-- `_get_month_category_totals_sync(user_id, year, month)`:
group the month's rows by the coerced category, sum `amount` per group
(`GROUP BY cat`), and order the groups by descending total. -/
def get_month_category_totals (db : DB) (user_id : Int) (y m : Nat) :
    List (String × Int) :=
  let rows := monthRows db user_id y m
  let keys := (rows.map (fun r => coerceCat r.category)).dedup
  sortDesc (keys.map (fun c =>
    (c, ((rows.filter (fun r => coerceCat r.category == c)).map (fun r => r.amount)).sum)))

/-- `_get_last_expense_sync(user_id)`:
`SELECT ... WHERE user_id = ? ORDER BY id DESC LIMIT 1`, returning `None`
on an empty result.  On the ascending-id rows list this is the last
matching row. -/
def get_last_expense (db : DB) (user_id : Int) :
    Option (Nat × String × Int × String × Option String) :=
  ((db.rows.filter (fun r => r.user_id == user_id)).getLast?).map
    (fun r => (r.id, r.item, r.amount, r.date, r.category))

/-- `_delete_expense_sync(user_id, expense_id)`:
`DELETE FROM expenses WHERE user_id = ? AND id = ?`, returning
`cur.rowcount or 0`, i.e. the number of rows removed. -/
def delete_expense (db : DB) (user_id : Int) (expense_id : Nat) : DB × Int :=
  let hit := fun (r : Expense) => r.user_id == user_id && r.id == expense_id
  ({ rows := db.rows.filter (fun r => !(hit r)), nextId := db.nextId },
   ((db.rows.filter hit).length : Int))

/-- `_delete_all_expenses_sync(user_id)`:
`DELETE FROM expenses WHERE user_id = ?`, returning `cur.rowcount or 0`. -/
def delete_all_expenses (db : DB) (user_id : Int) : DB × Int :=
  ({ rows := db.rows.filter (fun r => !(r.user_id == user_id)), nextId := db.nextId },
   ((db.rows.filter (fun r => r.user_id == user_id)).length : Int))

/-- `_ensure_schema(conn)` acting on the schema state: `none` means the
`expenses` table is absent; `some cols` is its column list (in
`PRAGMA table_info` order).  `CREATE TABLE IF NOT EXISTS` installs the five
mandatory columns only when the table is absent; then the `PRAGMA
table_info` inspection adds `category` only if that column is missing. -/
def ensure_schema (schema : Option (List String)) : List String :=
  let cols := match schema with
    | none => ["id", "user_id", "item", "amount", "date"]
    | some cs => cs
  if "category" ∈ cols then cols else cols ++ ["category"]

/-! The `utils.parse_expense_message` helper, embedded over `List Char`.

Python's `str.strip` / `str.split()` are embedded as explicit character-list
functions (`pyStrip`, `pyWords`); `str.isdigit` / `int` are embedded for
ASCII digit strings, the only ones the source path accepts. -/

/-- Python `str.strip()`: drop whitespace from both ends. -/
def pyStrip (s : List Char) : List Char :=
  ((s.dropWhile Char.isWhitespace).reverse.dropWhile Char.isWhitespace).reverse

/-- Helper for `pyWords`: accumulate the current word (reversed) while
scanning. -/
def pyWordsAux : List Char → List Char → List (List Char)
  | [], acc => if acc = [] then [] else [acc.reverse]
  | c :: cs, acc =>
    if c.isWhitespace then
      if acc = [] then pyWordsAux cs [] else acc.reverse :: pyWordsAux cs []
    else pyWordsAux cs (c :: acc)

/-- Python `str.split()` with no argument: split on runs of whitespace,
producing no empty tokens. -/
def pyWords (s : List Char) : List (List Char) := pyWordsAux s []

/-- Python `str.isdigit()` on the ASCII fragment: non-empty and all digits. -/
def pyIsDigit (s : List Char) : Bool := !s.isEmpty && s.all Char.isDigit

/-- Python `int` on a digit string. -/
def digitsVal (s : List Char) : Nat :=
  s.foldl (fun n c => n * 10 + (c.toNat - 48)) 0

/-- Python `" ".join(parts)`. -/
def joinSpace : List (List Char) → List Char
  | [] => []
  | [w] => w
  | w :: ws => w ++ ' ' :: joinSpace ws

/-- The five `ValueError` branches of `parse_expense_message`, in source
order: empty text, fewer than two tokens, non-digit amount token, negative
amount, empty item. -/
inductive ParseError where
  | emptyText
  | tooFewParts
  | notDigits
  | negativeAmount
  | emptyItem
deriving DecidableEq, Repr

/-- `utils.parse_expense_message(text)`: strip, split into whitespace-separated
tokens, take the last token as the amount and the space-joined rest (stripped)
as the item, then run the source's checks in source order. -/
def parse_expense_message (text : String) : Except ParseError (String × Int) :=
  let s := pyStrip text.data
  if s = [] then .error .emptyText
  else
    let parts := pyWords s
    if parts.length < 2 then .error .tooFewParts
    else
      let amount_str := parts.getLastD []
      let item := pyStrip (joinSpace parts.dropLast)
      if !pyIsDigit amount_str then .error .notDigits
      else
        let amount : Int := (digitsVal amount_str : Int)
        if amount < 0 then .error .negativeAmount
        else if item = [] then .error .emptyItem
        else .ok (⟨item⟩, amount)

/-- States of the running system: records enter the store only through
`handle_expense_message` in `src/bot.py`, which inserts the `(item, amount)`
pair returned by a successful `parse_expense_message`; records leave through
the single-id delete (`/undo`) and the bulk delete (`/clear`). -/
inductive Reachable : DB → Prop where
  | init : Reachable DB.empty
  | insert {db : DB} (uid : Int) (text : String) (item : String) (amount : Int)
      (date cat : String) (hp : parse_expense_message text = .ok (item, amount)) :
      Reachable db → Reachable (add_expense db uid item amount date (some cat))
  | insertNoCat {db : DB} (uid : Int) (text : String) (item : String) (amount : Int)
      (date : String) (hp : parse_expense_message text = .ok (item, amount)) :
      Reachable db → Reachable (add_expense db uid item amount date none)
  | deleteOne {db : DB} (uid : Int) (eid : Nat) :
      Reachable db → Reachable (delete_expense db uid eid).1
  | deleteAll {db : DB} (uid : Int) :
      Reachable db → Reachable (delete_all_expenses db uid).1

/-! Helper lemmas shared by the claim theorems. -/

theorem isPrefixOf_iff_exists : ∀ (p s : List Char),
    p.isPrefixOf s = true ↔ ∃ t, s = p ++ t := by
  intro p
  induction p with
  | nil => intro s; simp [List.isPrefixOf]
  | cons c cs ih =>
    intro s
    cases s with
    | nil => simp [List.isPrefixOf]
    | cons d ds =>
      simp only [List.isPrefixOf, Bool.and_eq_true, beq_iff_eq, ih, List.cons_append,
        List.cons.injEq]
      constructor
      · rintro ⟨rfl, t, rfl⟩; exact ⟨t, rfl, rfl⟩
      · rintro ⟨t, rfl, rfl⟩; exact ⟨rfl, t, rfl⟩

theorem isPrefixOf_append (p t : List Char) : p.isPrefixOf (p ++ t) = true :=
  (isPrefixOf_iff_exists p (p ++ t)).mpr ⟨t, rfl⟩

theorem eq_of_two_prefixes {p q s : List Char} (hp : p.isPrefixOf s = true)
    (hq : q.isPrefixOf s = true) (hl : p.length = q.length) : p = q := by
  obtain ⟨t, rfl⟩ := (isPrefixOf_iff_exists p s).mp hp
  obtain ⟨u, hu⟩ := (isPrefixOf_iff_exists q (p ++ t)).mp hq
  exact (List.append_inj hu.symm hl.symm).1.symm

set_option maxRecDepth 20000 in
theorem padTwo_inj : ∀ m, m < 100 → ∀ n, n < 100 →
    padZerosL 2 m = padZerosL 2 n → m = n := by decide

set_option maxRecDepth 20000 in
theorem padTwo_length : ∀ m, m < 100 → (padZerosL 2 m).length = 2 := by decide

theorem ymPatL_length {m : Nat} (y : Nat) (hm : m < 100) :
    (ymPatL y m).length = (padZerosL 4 y).length + 4 := by
  simp [ymPatL, padTwo_length m hm]

theorem ymPatL_not_prefix {y m m' : Nat} (hm : m < 100) (hm' : m' < 100)
    (hne : m' ≠ m) {s : List Char} (h : (ymPatL y m').isPrefixOf s = true) :
    (ymPatL y m).isPrefixOf s = false := by
  by_contra hcon
  rw [Bool.not_eq_false] at hcon
  have hlen : (ymPatL y m).length = (ymPatL y m').length := by
    rw [ymPatL_length y hm, ymPatL_length y hm']
  have heq : ymPatL y m = ymPatL y m' := eq_of_two_prefixes hcon h hlen
  unfold ymPatL at heq
  have h2 := (List.append_inj heq rfl).2
  have h3 := List.cons.inj h2
  have h4 := (List.append_inj h3.2 (by rw [padTwo_length m hm, padTwo_length m' hm'])).1
  exact hne (padTwo_inj m hm m' hm' h4).symm

theorem foldl_add_amount (l : List Expense) (a : Int) :
    l.foldl (fun acc r => acc + r.amount) a = a + (l.map (fun r => r.amount)).sum := by
  induction l generalizing a with
  | nil => simp
  | cons r t ih => simp [List.foldl_cons, ih, add_assoc]

/-- C3: `get_month_total` is the sum of `amount` over exactly the user's
records whose date starts with the zero-padded `YYYY-MM-` pattern; it is `0`
(not an error) when no record matches; and inserting a record dated in any
other (in particular an adjacent) month of the same zero-padded width leaves
the total unchanged. -/
theorem C3_month_total (db : DB) (uid : Int) (y m : Nat) :
    get_month_total db uid y m
      = ((db.rows.filter (fun r => r.user_id == uid
            && (ymPatL y m).isPrefixOf r.date.data)).map (fun r => r.amount)).sum
    ∧ ((∀ r ∈ db.rows, r.user_id = uid → ¬ ((ymPatL y m).isPrefixOf r.date.data = true)) →
        get_month_total db uid y m = 0)
    ∧ (∀ (item : String) (amount : Int) (cat : Option String) (suffix : List Char)
        (m' : Nat), m < 100 → m' < 100 → m' ≠ m →
        get_month_total (add_expense db uid item amount ⟨ymPatL y m' ++ suffix⟩ cat) uid y m
          = get_month_total db uid y m) := by
  refine ⟨?_, ?_, ?_⟩
  · rw [get_month_total, foldl_add_amount]
    simp [monthRows, likeYM]
  · intro h
    rw [get_month_total, foldl_add_amount]
    have : monthRows db uid y m = [] := by
      rw [monthRows, List.filter_eq_nil_iff]
      intro r hr
      simp only [Bool.and_eq_true, beq_iff_eq, likeYM, not_and]
      intro hu
      exact h r hr hu
    simp [this]
  · intro item amount cat suffix m' hm hm' hne
    have hdate : likeYM y m (String.mk (ymPatL y m' ++ suffix)) = false := by
      unfold likeYM
      exact ymPatL_not_prefix hm hm' hne (isPrefixOf_append _ _)
    unfold get_month_total monthRows add_expense
    rw [List.filter_append]
    simp [hdate]

theorem parse_ok_facts {text item : String} {amount : Int}
    (h : parse_expense_message text = .ok (item, amount)) :
    item ≠ "" ∧ 0 ≤ amount ∧
      amount = (digitsVal ((pyWords (pyStrip text.data)).getLastD []) : Int) ∧
      item = String.mk (pyStrip (joinSpace ((pyWords (pyStrip text.data)).dropLast))) := by
  by_cases h1 : pyStrip text.data = []
  · simp [parse_expense_message, h1] at h
  by_cases h2 : (pyWords (pyStrip text.data)).length < 2
  · simp [parse_expense_message, h1, h2] at h
  by_cases h3 : pyIsDigit ((pyWords (pyStrip text.data)).getLast?.getD []) = false
  · simp [parse_expense_message, h1, h2, h3] at h
  have h4 : ¬((digitsVal ((pyWords (pyStrip text.data)).getLast?.getD []) : Int) < 0) :=
    Int.not_lt.mpr (Int.natCast_nonneg _)
  by_cases h5 : pyStrip (joinSpace ((pyWords (pyStrip text.data)).dropLast)) = []
  · simp [parse_expense_message, h1, h2, h3, h4, h5] at h
  · simp [parse_expense_message, h1, h2, h3, h4, h5] at h
    obtain ⟨rfl, rfl⟩ := h
    refine ⟨?_, Int.natCast_nonneg _, by simp [List.getLastD_eq_getLast?], rfl⟩
    intro hc
    apply h5
    have hd := congrArg String.data hc
    simpa using hd

theorem parse_never_negative (t : String) :
    parse_expense_message t ≠ .error .negativeAmount := by
  intro h
  by_cases h1 : pyStrip t.data = []
  · simp [parse_expense_message, h1] at h
  by_cases h2 : (pyWords (pyStrip t.data)).length < 2
  · simp [parse_expense_message, h1, h2] at h
  by_cases h3 : pyIsDigit ((pyWords (pyStrip t.data)).getLast?.getD []) = false
  · simp [parse_expense_message, h1, h2, h3] at h
  have h4 : ¬((digitsVal ((pyWords (pyStrip t.data)).getLast?.getD []) : Int) < 0) :=
    Int.not_lt.mpr (Int.natCast_nonneg _)
  by_cases h5 : pyStrip (joinSpace ((pyWords (pyStrip t.data)).dropLast)) = []
  · simp [parse_expense_message, h1, h2, h3, h4, h5] at h
  · simp [parse_expense_message, h1, h2, h3, h4, h5] at h

/-- C10: whenever `parse_expense_message` succeeds, the returned item is
non-empty, the returned amount is the integer value of the last
whitespace-separated token and hence non-negative; the explicit
negative-amount `ValueError` branch is unreachable for every input. -/
theorem C10_parse_safety (text item : String) (amount : Int)
    (h : parse_expense_message text = .ok (item, amount)) :
    item ≠ "" ∧ 0 ≤ amount ∧
      amount = (digitsVal ((pyWords (pyStrip text.data)).getLastD []) : Int) ∧
      ∀ t, parse_expense_message t ≠ .error .negativeAmount :=
  ⟨(parse_ok_facts h).1, (parse_ok_facts h).2.1, (parse_ok_facts h).2.2.1,
   parse_never_negative⟩

/-- C10 witness: the theorem applied to the concrete message `"non 5000"`. -/
theorem C10_witness :
    ("non" : String) ≠ "" ∧ 0 ≤ (5000 : Int) ∧
      (5000 : Int) = (digitsVal ((pyWords (pyStrip ("non 5000" : String).data)).getLastD []) : Int) ∧
      ∀ t, parse_expense_message t ≠ .error .negativeAmount :=
  C10_parse_safety "non 5000" "non" 5000 rfl

/-- C2 counterexample: `add_expense` performs no validation, so inserting an
empty item with amount `-1` succeeds and a new row appears in the
previously-empty ledger, contradicting "fails with a ValidationError ... and
produces no new row". -/
theorem C2_counterexample :
    get_all_expenses (add_expense DB.empty 1 "" (-1) "2024-03-01" none) 1
      = [("", -1, "2024-03-01")]
    ∧ get_all_expenses DB.empty 1 = [] :=
  ⟨rfl, rfl⟩

/-- C2 amended: the store does not re-check its inputs: an insert with an
empty item or a negative amount succeeds and appends a row all the same.
The validation exists only upstream: `parse_expense_message` can never
produce such an `(item, amount)` pair. -/
theorem C2_no_store_validation (db : DB) (uid : Int) (item : String) (amount : Int)
    (date : String) (cat : Option String) (h : item = "" ∨ amount < 0) :
    get_all_expenses (add_expense db uid item amount date cat) uid
      = get_all_expenses db uid ++ [(item, amount, date)]
    ∧ ∀ text, parse_expense_message text ≠ .ok (item, amount) := by
  constructor
  · unfold get_all_expenses add_expense
    rw [List.filter_append]
    simp
  · intro text hc
    rcases h with h | h
    · exact (parse_ok_facts hc).1 h
    · exact absurd (parse_ok_facts hc).2.1 (by omega)

/-- C2 witness: the amended theorem applied to the empty database, empty
item and amount `-1`. -/
theorem C2_witness :
    (("" : String) = "" ∨ (-1 : Int) < 0) ∧
      (get_all_expenses (add_expense DB.empty 1 "" (-1) "2024-03-01" none) 1
        = get_all_expenses DB.empty 1 ++ [("", -1, "2024-03-01")]
      ∧ ∀ text, parse_expense_message text ≠ .ok ("", -1)) :=
  ⟨Or.inl rfl, C2_no_store_validation DB.empty 1 "" (-1) "2024-03-01" none (Or.inl rfl)⟩

theorem reachable_amounts_nonneg {db : DB} (h : Reachable db) :
    ∀ r ∈ db.rows, 0 ≤ r.amount := by
  induction h with
  | init => simp [DB.empty]
  | insert uid text item amount date cat hp _ ih =>
    intro r hr
    rw [add_expense] at hr
    rcases List.mem_append.mp hr with hm | hm
    · exact ih r hm
    · rw [List.mem_singleton.mp hm]
      exact (parse_ok_facts hp).2.1
  | insertNoCat uid text item amount date hp _ ih =>
    intro r hr
    rw [add_expense] at hr
    rcases List.mem_append.mp hr with hm | hm
    · exact ih r hm
    · rw [List.mem_singleton.mp hm]
      exact (parse_ok_facts hp).2.1
  | deleteOne uid eid _ ih =>
    intro r hr
    rw [delete_expense] at hr
    exact ih r (List.mem_of_mem_filter hr)
  | deleteAll uid _ ih =>
    intro r hr
    rw [delete_all_expenses] at hr
    exact ih r (List.mem_of_mem_filter hr)

/-- C8: in every reachable ledger state — records enter only with the
amounts that `parse_expense_message` accepted upstream — `get_month_total`
returns a non-negative integer (and by type it is an integer, never null). -/
theorem C8_month_total_nonneg (db : DB) (h : Reachable db) (uid : Int) (y m : Nat) :
    0 ≤ get_month_total db uid y m := by
  rw [get_month_total, foldl_add_amount, zero_add]
  apply List.sum_nonneg
  intro x hx
  obtain ⟨r, hr, rfl⟩ := List.mem_map.mp hx
  rw [monthRows] at hr
  exact reachable_amounts_nonneg h r (List.mem_of_mem_filter hr)

/-- C8 witness: the theorem applied to the state reached by parsing and
inserting `"non 5000"`. -/
theorem C8_witness :
    0 ≤ get_month_total (add_expense DB.empty 1 "non" 5000 "2024-03-01" none) 1 2024 3 :=
  C8_month_total_nonneg _
    (Reachable.insertNoCat 1 "non 5000" "non" 5000 "2024-03-01" rfl Reachable.init) 1 2024 3

/-- C1: for valid input, an insert followed by `get_all_expenses` for the
same user yields exactly the inserted `(item, amount, date)` appended after
all previously present records of that user; the listed rows are in
ascending-id (insertion) order; and a user with no records gets the empty
list, not an error. -/
theorem C1_insert_then_list_all (db : DB) (hwf : db.WF) (uid : Int) (item : String)
    (amount : Int) (date : String) (cat : Option String)
    (hitem : item ≠ "") (hamt : 0 ≤ amount) :
    get_all_expenses (add_expense db uid item amount date cat) uid
      = get_all_expenses db uid ++ [(item, amount, date)]
    ∧ (db.rows.filter (fun r => r.user_id == uid)).Pairwise (fun a b => a.id < b.id)
    ∧ ((∀ r ∈ db.rows, r.user_id ≠ uid) → get_all_expenses db uid = []) := by
  refine ⟨?_, ?_, ?_⟩
  · unfold get_all_expenses add_expense
    rw [List.filter_append]
    simp
  · exact List.Pairwise.sublist (List.filter_sublist db.rows) hwf.1
  · intro h
    unfold get_all_expenses
    have hnil : db.rows.filter (fun r => r.user_id == uid) = [] := by
      rw [List.filter_eq_nil_iff]
      intro r hr
      simp [h r hr]
    rw [hnil, List.map_nil]

/-- C1 witness: inserting `("non", 5000)` into the empty database. -/
theorem C1_witness :
    DB.empty.WF ∧ ("non" : String) ≠ "" ∧ (0 : Int) ≤ 5000 ∧
      (get_all_expenses (add_expense DB.empty 1 "non" 5000 "2024-03-01" none) 1
        = get_all_expenses DB.empty 1 ++ [("non", 5000, "2024-03-01")]
      ∧ (DB.empty.rows.filter (fun r => r.user_id == 1)).Pairwise (fun a b => a.id < b.id)
      ∧ ((∀ r ∈ DB.empty.rows, r.user_id ≠ 1) → get_all_expenses DB.empty 1 = [])) :=
  ⟨⟨List.Pairwise.nil, by simp [DB.empty]⟩, by decide, by decide,
   C1_insert_then_list_all DB.empty ⟨List.Pairwise.nil, by simp [DB.empty]⟩ 1 "non" 5000
     "2024-03-01" none (by decide) (by decide)⟩

/-- C6: `delete_all_expenses` returns exactly the number of the user's
records, leaves the user's `get_all_expenses` empty, returns 0 when run
again immediately, and keeps every record of every other user. -/
theorem C6_delete_all (db : DB) (uid : Int) :
    (delete_all_expenses db uid).2 = ((get_all_expenses db uid).length : Int)
    ∧ get_all_expenses (delete_all_expenses db uid).1 uid = []
    ∧ (delete_all_expenses (delete_all_expenses db uid).1 uid).2 = 0
    ∧ ∀ r ∈ db.rows, r.user_id ≠ uid → r ∈ (delete_all_expenses db uid).1.rows := by
  have hnil : (db.rows.filter (fun r => !(r.user_id == uid))).filter
      (fun r => r.user_id == uid) = [] := by
    rw [List.filter_eq_nil_iff]
    intro r hr
    have := (List.mem_filter.mp hr).2
    simp only [Bool.not_eq_eq_eq_not, Bool.not_true] at this
    simp [this]
  refine ⟨?_, ?_, ?_, ?_⟩
  · simp [delete_all_expenses, get_all_expenses]
  · simp only [delete_all_expenses, get_all_expenses]
    rw [hnil, List.map_nil]
  · simp only [delete_all_expenses]
    rw [hnil]
    rfl
  · intro r hr hne
    simp only [delete_all_expenses, List.mem_filter]
    refine ⟨hr, ?_⟩
    simp [hne]

/-- C6 witness: a database with one record of user 1 and one of user 2;
user 2's record survives user 1's bulk delete. -/
theorem C6_witness :
    (⟨1, 2, "tea", 700, "2024-03-02", none⟩ : Expense) ∈
        (⟨[⟨0, 1, "non", 5000, "2024-03-01", none⟩, ⟨1, 2, "tea", 700, "2024-03-02", none⟩], 2⟩ : DB).rows
    ∧ (⟨1, 2, "tea", 700, "2024-03-02", none⟩ : Expense).user_id ≠ (1 : Int)
    ∧ (⟨1, 2, "tea", 700, "2024-03-02", none⟩ : Expense) ∈
        (delete_all_expenses ⟨[⟨0, 1, "non", 5000, "2024-03-01", none⟩, ⟨1, 2, "tea", 700, "2024-03-02", none⟩], 2⟩ 1).1.rows :=
  ⟨by decide, by decide,
   (C6_delete_all ⟨[⟨0, 1, "non", 5000, "2024-03-01", none⟩, ⟨1, 2, "tea", 700, "2024-03-02", none⟩], 2⟩ 1).2.2.2
     ⟨1, 2, "tea", 700, "2024-03-02", none⟩ (by decide) (by decide)⟩

/-- C9: `ensure_schema` is idempotent: running it on a state where it has
already run changes nothing; a table that already has the `category` column
is left untouched; an absent table is created with the five mandatory
columns plus the additive `category` column; and any positive number of
applications equals one application. -/
theorem C9_schema_idempotent (s : Option (List String)) :
    ensure_schema (some (ensure_schema s)) = ensure_schema s
    ∧ (∀ cols, "category" ∈ cols → ensure_schema (some cols) = cols)
    ∧ ensure_schema none = ["id", "user_id", "item", "amount", "date", "category"]
    ∧ ∀ n, (fun t => some (ensure_schema t))^[n + 1] s = some (ensure_schema s) := by
  have hmem : ∀ t, "category" ∈ ensure_schema t := by
    intro t
    cases t with
    | none => decide
    | some cs =>
      rw [ensure_schema.eq_def]
      by_cases hc : "category" ∈ cs
      · simp [hc]
      · simp [hc]
  have hid : ∀ cols, "category" ∈ cols → ensure_schema (some cols) = cols := by
    intro cols hc
    rw [ensure_schema.eq_def]
    simp [hc]
  refine ⟨hid _ (hmem s), hid, by decide, ?_⟩
  intro n
  induction n with
  | zero => rfl
  | succ k ih =>
    rw [Function.iterate_succ_apply', ih]
    exact congrArg some (hid _ (hmem s))

/-- C9 witness: a table that already carries all six columns is left
unchanged by another `ensure_schema` run. -/
theorem C9_witness :
    ensure_schema (some ["id", "user_id", "item", "amount", "date", "category"])
      = ["id", "user_id", "item", "amount", "date", "category"] :=
  (C9_schema_idempotent none).2.1 ["id", "user_id", "item", "amount", "date", "category"]
    (by decide)

theorem insertDesc_perm (p : String × Int) (l : List (String × Int)) :
    (insertDesc p l).Perm (p :: l) := by
  induction l with
  | nil => exact List.Perm.refl _
  | cons q qs ih =>
    rw [insertDesc]
    by_cases h : q.2 ≤ p.2
    · rw [if_pos h]
    · rw [if_neg h]
      exact (ih.cons q).trans (List.Perm.swap p q qs)

theorem sortDesc_perm (l : List (String × Int)) : (sortDesc l).Perm l := by
  induction l with
  | nil => exact List.Perm.refl _
  | cons p ps ih => exact (insertDesc_perm p (sortDesc ps)).trans (ih.cons p)

theorem insertDesc_sorted {l : List (String × Int)}
    (hl : l.Pairwise (fun a b => b.2 ≤ a.2)) (p : String × Int) :
    (insertDesc p l).Pairwise (fun a b => b.2 ≤ a.2) := by
  induction l with
  | nil => simp [insertDesc]
  | cons q qs ih =>
    rw [insertDesc]
    by_cases h : q.2 ≤ p.2
    · rw [if_pos h, List.pairwise_cons]
      refine ⟨?_, hl⟩
      intro x hx
      rcases List.mem_cons.mp hx with rfl | hx'
      · exact h
      · exact le_trans ((List.pairwise_cons.mp hl).1 x hx') h
    · rw [if_neg h, List.pairwise_cons]
      refine ⟨?_, ih (List.pairwise_cons.mp hl).2⟩
      intro x hx
      have hx' := (insertDesc_perm p qs).mem_iff.mp hx
      rcases List.mem_cons.mp hx' with rfl | hx''
      · exact le_of_not_le h
      · exact (List.pairwise_cons.mp hl).1 x hx''

theorem sortDesc_sorted (l : List (String × Int)) :
    (sortDesc l).Pairwise (fun a b => b.2 ≤ a.2) := by
  induction l with
  | nil => exact List.Pairwise.nil
  | cons p ps ih => exact insertDesc_sorted ih p

/-- C4 counterexample: with the spec scenario (bread 5000 and coffee 12000
in March 2024, no categories set) the month-by-category mapping carries the
label `"Boshqa"`, not `"Other"` as the claim states. -/
theorem C4_counterexample :
    get_month_category_totals
      (add_expense (add_expense DB.empty 1 "bread" 5000 "2024-03-01" none)
        1 "coffee" 12000 "2024-03-15" none) 1 2024 3
      = [("Boshqa", 17000)]
    ∧ get_month_category_totals
      (add_expense (add_expense DB.empty 1 "bread" 5000 "2024-03-01" none)
        1 "coffee" 12000 "2024-03-15" none) 1 2024 3
      ≠ [("Other", 17000)] := by
  constructor
  · rfl
  · decide

/-- C4 amended: `get_month_category_totals` maps each listed category to the
summed amount of that month's records carrying it, with null or blank
categories coerced to the label `"Boshqa"` (the source's literal, where the
claim said `"Other"`); the result is ordered descending by total, lists each
category of the month's records exactly once, and nothing else. -/
theorem C4_month_by_category (db : DB) (uid : Int) (y m : Nat) :
    (∀ c t, (c, t) ∈ get_month_category_totals db uid y m →
        t = (((monthRows db uid y m).filter (fun r => coerceCat r.category == c)).map
              (fun r => r.amount)).sum)
    ∧ (get_month_category_totals db uid y m).Pairwise (fun a b => b.2 ≤ a.2)
    ∧ (∀ c, c ∈ (get_month_category_totals db uid y m).map Prod.fst ↔
        ∃ r ∈ monthRows db uid y m, coerceCat r.category = c)
    ∧ ((get_month_category_totals db uid y m).map Prod.fst).Nodup := by
  have hdef : get_month_category_totals db uid y m
      = sortDesc ((((monthRows db uid y m).map (fun r => coerceCat r.category)).dedup).map
          (fun c => (c, (((monthRows db uid y m).filter
            (fun r => coerceCat r.category == c)).map (fun r => r.amount)).sum))) := rfl
  refine ⟨?_, ?_, ?_, ?_⟩
  · intro c t hmem
    rw [hdef] at hmem
    have h2 := (sortDesc_perm _).mem_iff.mp hmem
    obtain ⟨c2, _, heq⟩ := List.mem_map.mp h2
    have hc : c2 = c := congrArg Prod.fst heq
    have ht := congrArg Prod.snd heq
    rw [hc] at ht
    exact ht.symm
  · rw [hdef]
    exact sortDesc_sorted _
  · intro c
    rw [hdef]
    rw [List.Perm.mem_iff ((sortDesc_perm _).map Prod.fst)]
    simp only [List.map_map]
    constructor
    · intro hc
      obtain ⟨c2, hc2, heq⟩ := List.mem_map.mp hc
      rw [← heq]
      obtain ⟨r, hr, hrc⟩ := List.mem_map.mp (List.mem_dedup.mp hc2)
      exact ⟨r, hr, hrc⟩
    · intro ⟨r, hr, hc⟩
      apply List.mem_map.mpr
      refine ⟨c, ?_, rfl⟩
      exact List.mem_dedup.mpr (List.mem_map.mpr ⟨r, hr, hc⟩)
  · rw [hdef]
    refine (List.Perm.nodup_iff ((sortDesc_perm _).map Prod.fst)).mpr ?_
    rw [List.map_map]
    have hcomp : (Prod.fst ∘ fun c => ((c : String),
        (((monthRows db uid y m).filter (fun r => coerceCat r.category == c)).map
          (fun r => r.amount)).sum)) = id := rfl
    rw [hcomp, List.map_id]
    exact List.nodup_dedup _

/-- C4 witness: in the March 2024 scenario the theorem yields the `"Boshqa"`
group total 17000. -/
theorem C4_witness :
    (("Boshqa", (17000 : Int)) ∈ get_month_category_totals
      (add_expense (add_expense DB.empty 1 "bread" 5000 "2024-03-01" none)
        1 "coffee" 12000 "2024-03-15" none) 1 2024 3)
    ∧ (17000 : Int) = (((monthRows
      (add_expense (add_expense DB.empty 1 "bread" 5000 "2024-03-01" none)
        1 "coffee" 12000 "2024-03-15" none) 1 2024 3).filter
        (fun r => coerceCat r.category == "Boshqa")).map (fun r => r.amount)).sum :=
  ⟨by decide, (C4_month_by_category
      (add_expense (add_expense DB.empty 1 "bread" 5000 "2024-03-01" none)
        1 "coffee" 12000 "2024-03-15" none) 1 2024 3).1 "Boshqa" 17000 (by decide)⟩

theorem eq_of_mem_of_id_eq {l : List Expense} (hl : l.Pairwise (fun a b => a.id < b.id)) :
    ∀ {s r : Expense}, s ∈ l → r ∈ l → s.id = r.id → s = r := by
  induction l with
  | nil => intro s r hs _ _; simp at hs
  | cons a t ih =>
    intro s r hs hr heq
    rcases List.mem_cons.mp hs with rfl | hs' <;> rcases List.mem_cons.mp hr with rfl | hr'
    · rfl
    · have := (List.pairwise_cons.mp hl).1 r hr'; omega
    · have := (List.pairwise_cons.mp hl).1 s hs'; omega
    · exact ih (List.pairwise_cons.mp hl).2 hs' hr' heq

theorem filter_id_len_le_one {l : List Expense} (hl : l.Pairwise (fun a b => a.id < b.id))
    (p : Expense → Bool) (eid : Nat) :
    (l.filter (fun r => p r && r.id == eid)).length ≤ 1 := by
  have hsub : (l.filter (fun r => p r && r.id == eid)).Pairwise (fun a b => a.id < b.id) :=
    List.Pairwise.sublist (List.filter_sublist l) hl
  have hall : ∀ r ∈ l.filter (fun r => p r && r.id == eid), r.id = eid := by
    intro r hr
    have h2 := (List.mem_filter.mp hr).2
    simp only [Bool.and_eq_true, beq_iff_eq] at h2
    exact h2.2
  match hfe : l.filter (fun r => p r && r.id == eid) with
  | [] => simp
  | [a] => simp
  | a :: b :: t =>
    rw [hfe] at hsub hall
    have h1 := (List.pairwise_cons.mp hsub).1 b (by simp)
    have h2 := hall a (by simp)
    have h3 := hall b (by simp)
    omega

/-- C5: deleting a record by id under a different user than its owner
returns 0 and leaves the table untouched; in general `delete_expense`
returns 0 or 1, the returned count is exactly the number of rows removed,
and a row can disappear only when it carries the caller's `user_id` and the
given id. -/
theorem C5_delete_scoped (db : DB) (hwf : db.WF) (uidB : Int) (r : Expense)
    (hr : r ∈ db.rows) (hB : uidB ≠ r.user_id) :
    ((delete_expense db uidB r.id).2 = 0 ∧ (delete_expense db uidB r.id).1.rows = db.rows)
    ∧ (∀ uid eid, (delete_expense db uid eid).2 = 0 ∨ (delete_expense db uid eid).2 = 1)
    ∧ (∀ uid eid, ((delete_expense db uid eid).1.rows.length : Int)
        + (delete_expense db uid eid).2 = (db.rows.length : Int))
    ∧ (∀ uid eid s, s ∈ db.rows → s ∉ (delete_expense db uid eid).1.rows →
        s.user_id = uid ∧ s.id = eid) := by
  have hmiss : ∀ s ∈ db.rows, (s.user_id == uidB && s.id == r.id) = false := by
    intro s hs
    by_contra hcon
    rw [Bool.not_eq_false, Bool.and_eq_true, beq_iff_eq, beq_iff_eq] at hcon
    have hsr : s = r := eq_of_mem_of_id_eq hwf.1 hs hr hcon.2
    apply hB
    rw [← hcon.1, hsr]
  refine ⟨⟨?_, ?_⟩, ?_, ?_, ?_⟩
  · simp only [delete_expense]
    have hnil : db.rows.filter (fun x => x.user_id == uidB && x.id == r.id) = [] := by
      rw [List.filter_eq_nil_iff]
      intro s hs
      simp [hmiss s hs]
    rw [hnil]
    rfl
  · simp only [delete_expense]
    rw [List.filter_eq_self]
    intro s hs
    rw [hmiss s hs]
    rfl
  · intro uid eid
    have hle := filter_id_len_le_one hwf.1 (fun r => r.user_id == uid) eid
    simp only [delete_expense]
    omega
  · intro uid eid
    have hpart := List.length_eq_length_filter_add
      (l := db.rows) (fun x => x.user_id == uid && x.id == eid)
    simp only [delete_expense]
    omega
  · intro uid eid s hs hnot
    by_cases hh : (s.user_id == uid && s.id == eid) = true
    · rw [Bool.and_eq_true, beq_iff_eq, beq_iff_eq] at hh
      exact hh
    · exfalso
      apply hnot
      simp only [delete_expense]
      refine List.mem_filter.mpr ⟨hs, ?_⟩
      rw [Bool.not_eq_true] at hh
      rw [hh]
      rfl

/-- C5 witness: user 2 attempts to delete user 1's only record by its id. -/
theorem C5_witness :
    (delete_expense ⟨[⟨1, 1, "non", 5000, "2024-03-01", none⟩], 2⟩ 2 1).2 = 0
    ∧ (delete_expense ⟨[⟨1, 1, "non", 5000, "2024-03-01", none⟩], 2⟩ 2 1).1.rows
        = [⟨1, 1, "non", 5000, "2024-03-01", none⟩] :=
  have hwf : (⟨[⟨1, 1, "non", 5000, "2024-03-01", none⟩], 2⟩ : DB).WF := by
    constructor
    · simp
    · simp
  (C5_delete_scoped ⟨[⟨1, 1, "non", 5000, "2024-03-01", none⟩], 2⟩ hwf 2
    ⟨1, 1, "non", 5000, "2024-03-01", none⟩ (by simp) (by decide)).1

theorem get_last_add (db : DB) (uid : Int) (item : String) (amount : Int)
    (date : String) (cat : Option String) :
    get_last_expense (add_expense db uid item amount date cat) uid
      = some (db.nextId, item, amount, date, cat) := by
  unfold get_last_expense add_expense
  rw [List.filter_append]
  simp [List.getLast?_concat]

theorem getLast_ge_of_mem : ∀ {l : List Expense},
    l.Pairwise (fun a b => a.id < b.id) →
    ∀ r ∈ l, ∃ x, l.getLast? = some x ∧ r.id ≤ x.id := by
  intro l
  induction l with
  | nil => intro _ r hr; cases hr
  | cons a t ih =>
    intro hl r hr
    cases t with
    | nil =>
      have hra : r = a := by simpa using hr
      exact ⟨a, rfl, by rw [hra]⟩
    | cons b t2 =>
      have hl2 := (List.pairwise_cons.mp hl).2
      rcases List.mem_cons.mp hr with rfl | hr2
      · obtain ⟨x, hx, hbx⟩ := ih hl2 b (List.mem_cons_self b t2)
        refine ⟨x, ?_, ?_⟩
        · rw [List.getLast?_cons_cons]
          exact hx
        · have hab := (List.pairwise_cons.mp hl).1 b (List.mem_cons_self b t2)
          omega
      · obtain ⟨x, hx, hbx⟩ := ih hl2 r hr2
        refine ⟨x, ?_, hbx⟩
        rw [List.getLast?_cons_cons]
        exact hx

/-- C7: `get_last_expense` returns the user's record with the greatest
(most recently inserted) id: after inserting A then B it returns B; after
then deleting B by its id it returns A; on a ledger holding nothing for the
user it returns the `none` sentinel, not an error; and in general every
record of the user has an id bounded by the returned one. -/
theorem C7_last_record (db : DB) (hwf : db.WF) (uid : Int)
    (itmA itmB : String) (amtA amtB : Int) (dteA dteB : String) (catA catB : Option String) :
    get_last_expense
        (add_expense (add_expense db uid itmA amtA dteA catA) uid itmB amtB dteB catB) uid
      = some (db.nextId + 1, itmB, amtB, dteB, catB)
    ∧ get_last_expense
        (delete_expense (add_expense (add_expense db uid itmA amtA dteA catA) uid itmB amtB dteB catB)
          uid (db.nextId + 1)).1 uid
      = some (db.nextId, itmA, amtA, dteA, catA)
    ∧ ((∀ r ∈ db.rows, r.user_id ≠ uid) → get_last_expense db uid = none)
    ∧ (∀ r ∈ db.rows, r.user_id = uid →
        ∃ x, get_last_expense db uid = some x ∧ r.id ≤ x.1) := by
  refine ⟨?_, ?_, ?_, ?_⟩
  · exact get_last_add _ uid itmB amtB dteB catB
  · have hrows : (delete_expense
        (add_expense (add_expense db uid itmA amtA dteA catA) uid itmB amtB dteB catB)
          uid (db.nextId + 1)).1.rows
        = db.rows ++ [⟨db.nextId, uid, itmA, amtA, dteA, catA⟩] := by
      simp only [delete_expense, add_expense]
      rw [List.append_assoc, List.filter_append]
      have h1 : db.rows.filter
          (fun x => !(x.user_id == uid && x.id == db.nextId + 1)) = db.rows := by
        rw [List.filter_eq_self]
        intro s hs
        have hlt := hwf.2 s hs
        have hne : s.id ≠ db.nextId + 1 := by omega
        simp [hne]
      have hne2 : db.nextId ≠ db.nextId + 1 := by omega
      rw [h1]
      simp [hne2]
    unfold get_last_expense
    rw [hrows, List.filter_append]
    simp [List.getLast?_concat]
  · intro h
    unfold get_last_expense
    have hnil : db.rows.filter (fun x => x.user_id == uid) = [] := by
      rw [List.filter_eq_nil_iff]
      intro s hs
      simp [h s hs]
    rw [hnil]
    rfl
  · intro r hr hu
    have hmem : r ∈ db.rows.filter (fun x => x.user_id == uid) :=
      List.mem_filter.mpr ⟨hr, by simp [hu]⟩
    obtain ⟨x, hx, hle⟩ :=
      getLast_ge_of_mem (List.Pairwise.sublist (List.filter_sublist _) hwf.1) r hmem
    refine ⟨(x.id, x.item, x.amount, x.date, x.category), ?_, hle⟩
    unfold get_last_expense
    rw [hx]
    rfl

/-- C7 witness: insert `non` then `tea` for user 1 starting from the empty
database; the last record is `tea`, and after deleting it, `non`. -/
theorem C7_witness :
    get_last_expense
        (add_expense (add_expense DB.empty 1 "non" 5000 "2024-03-01" none)
          1 "tea" 700 "2024-03-02" none) 1
      = some (2, "tea", 700, "2024-03-02", none)
    ∧ get_last_expense
        (delete_expense (add_expense (add_expense DB.empty 1 "non" 5000 "2024-03-01" none)
          1 "tea" 700 "2024-03-02" none) 1 2).1 1
      = some (1, "non", 5000, "2024-03-01", none) :=
  have hwf : DB.empty.WF := ⟨List.Pairwise.nil, by simp [DB.empty]⟩
  ⟨(C7_last_record DB.empty hwf 1 "non" "tea" 5000 700 "2024-03-01" "2024-03-02" none none).1,
   (C7_last_record DB.empty hwf 1 "non" "tea" 5000 700 "2024-03-01" "2024-03-02" none none).2.1⟩

/-- C3 witness: with `("bread", 5000)` recorded in March 2024, inserting
`("rent", 500000)` dated in the adjacent month April 2024 leaves the March
total unchanged. -/
theorem C3_witness :
    get_month_total
      (add_expense (add_expense DB.empty 1 "bread" 5000 "2024-03-01" none)
        1 "rent" 500000 ⟨ymPatL 2024 4 ++ ['0', '1']⟩ none) 1 2024 3
      = get_month_total (add_expense DB.empty 1 "bread" 5000 "2024-03-01" none) 1 2024 3 :=
  (C3_month_total (add_expense DB.empty 1 "bread" 5000 "2024-03-01" none) 1 2024 3).2.2
    "rent" 500000 none ['0', '1'] 4 (by decide) (by decide) (by decide)

end ExpenseBot
